import Mathlib

/-!
Verification of the rotheca dynamic binary translator core against its
specification.  Each C++ component is shallowly embedded: machine integers
become natural numbers reduced modulo `2 ^ w` at the operations where the C
code overflows, byte buffers become lists of naturals, and the stateful cache
operations become explicit state-passing functions.
-/

namespace Rotheca

/-! ### XXH64 hashing (src/xxhash.h)

64-bit modular arithmetic helpers.  All C arithmetic in `xxhash.h` is on
`uint64_t`, i.e. modulo `2 ^ 64`. -/

def M64 : Nat := 2 ^ 64

def add64 (a b : Nat) : Nat := (a + b) % M64

def sub64 (a b : Nat) : Nat := (a % M64 + (M64 - b % M64)) % M64

def mul64 (a b : Nat) : Nat := (a * b) % M64

def xor64 (a b : Nat) : Nat := Nat.xor (a % M64) (b % M64)

/-- The C function `XXH_rotl64`: left rotation of a 64-bit value. -/
def rotl64 (x r : Nat) : Nat := ((x % M64) <<< r) % M64 ||| ((x % M64) >>> (64 - r))

def shr64 (x r : Nat) : Nat := (x % M64) >>> r

def PRIME64_1 : Nat := 11400714785074694791
def PRIME64_2 : Nat := 14029467366897019727
def PRIME64_3 : Nat := 1609587929392839161
def PRIME64_4 : Nat := 9650029242287828579
def PRIME64_5 : Nat := 2870177450012600261

/-- The C function `XXH64_round`. -/
def XXH64_round (acc input : Nat) : Nat :=
  mul64 (rotl64 (add64 acc (mul64 input PRIME64_2)) 31) PRIME64_1

/-- The C function `XXH64_mergeRound`. -/
def XXH64_mergeRound (acc val : Nat) : Nat :=
  add64 (mul64 (xor64 acc (XXH64_round 0 val)) PRIME64_1) PRIME64_4

/-- The C function `XXH_read64`: little-endian read of 8 bytes. -/
def read64 (l : List Nat) : Nat :=
  (l.take 8).foldr (fun b acc => b % 256 + 256 * acc) 0

/-- Little-endian read of 4 bytes (the `uint32_t` memcpy in the tail loop). -/
def read32 (l : List Nat) : Nat :=
  (l.take 4).foldr (fun b acc => b % 256 + 256 * acc) 0

/-- The four lane accumulators `v1 v2 v3 v4`. -/
structure XXHAcc where
  v1 : Nat
  v2 : Nat
  v3 : Nat
  v4 : Nat
  deriving Repr, DecidableEq

/-- One 32-byte stripe: four `XXH64_round`s on the four 8-byte lanes. -/
def round4 (a : XXHAcc) (block : List Nat) : XXHAcc :=
  { v1 := XXH64_round a.v1 (read64 block)
    v2 := XXH64_round a.v2 (read64 (block.drop 8))
    v3 := XXH64_round a.v3 (read64 (block.drop 16))
    v4 := XXH64_round a.v4 (read64 (block.drop 24)) }

/-- The main stripe loop of `XXH64` / `XXH64_update`, with an explicit fuel
bound (the loop consumes at least one byte per iteration, so `l.length` fuel
always suffices). -/
def processStripesGo : Nat → XXHAcc → List Nat → XXHAcc × List Nat
  | 0, a, l => (a, l)
  | fuel + 1, a, l =>
    if 32 ≤ l.length then processStripesGo fuel (round4 a (l.take 32)) (l.drop 32)
    else (a, l)

/-- The main stripe loop of `XXH64` / `XXH64_update`: consume full 32-byte
blocks while at least 32 bytes remain, returning the accumulators and the
unconsumed remainder (fewer than 32 bytes). -/
def processStripes (a : XXHAcc) (l : List Nat) : XXHAcc × List Nat :=
  processStripesGo l.length a l

/-- Accumulator initialisation shared by `XXH64` and `XXH64_reset`. -/
def initAcc (seed : Nat) : XXHAcc :=
  { v1 := add64 seed (add64 PRIME64_1 PRIME64_2)
    v2 := add64 seed PRIME64_2
    v3 := add64 seed 0
    v4 := sub64 seed PRIME64_1 }

/-- Rotate-combine of the four accumulators plus the four merge rounds. -/
def mergeAcc (a : XXHAcc) : Nat :=
  let h := add64 (add64 (add64 (rotl64 a.v1 1) (rotl64 a.v2 7)) (rotl64 a.v3 12))
      (rotl64 a.v4 18)
  XXH64_mergeRound (XXH64_mergeRound (XXH64_mergeRound (XXH64_mergeRound h a.v1) a.v2) a.v3)
    a.v4

/-- The final avalanche mixing. -/
def avalanche (h : Nat) : Nat :=
  let h1 := xor64 h (shr64 h 33)
  let h2 := mul64 h1 PRIME64_2
  let h3 := xor64 h2 (shr64 h2 29)
  let h4 := mul64 h3 PRIME64_3
  xor64 h4 (shr64 h4 32)

/-- The 4-byte chunk and single-byte steps of the tail, then the avalanche
(the part of the finalisation after the 8-byte loop). -/
def finishSmall (h : Nat) (l : List Nat) : Nat :=
  let s4 := if 4 ≤ l.length then
      (add64 (mul64 (rotl64 (xor64 h (mul64 (read32 l) PRIME64_1)) 23) PRIME64_2)
        PRIME64_3, l.drop 4)
    else (h, l)
  avalanche (s4.2.foldl
    (fun hh b => mul64 (rotl64 (xor64 hh (mul64 (b % 256) PRIME64_5)) 11) PRIME64_1) s4.1)

/-- The 8-byte chunk loop of the finalisation, with fuel. -/
def finishTailGo : Nat → Nat → List Nat → Nat
  | 0, h, l => finishSmall h l
  | fuel + 1, h, l =>
    if 8 ≤ l.length then
      finishTailGo fuel
        (add64 (mul64 (rotl64 (xor64 h (XXH64_round 0 (read64 l))) 27) PRIME64_1) PRIME64_4)
        (l.drop 8)
    else finishSmall h l

/-- Processing of the remaining 0–31 bytes (8-byte chunks, then a 4-byte
chunk, then single bytes) followed by the avalanche.  Shared verbatim between
the one-shot `XXH64` and `XXH64_digest`. -/
def finishTail (h : Nat) (l : List Nat) : Nat :=
  finishTailGo l.length h l

/-- One-shot `XXH64(input, len, seed)`. -/
def XXH64 (input : List Nat) (seed : Nat) : Nat :=
  let s :=
    if 32 ≤ input.length then
      let p := processStripes (initAcc seed) input
      (mergeAcc p.1, p.2)
    else (add64 seed PRIME64_5, input)
  finishTail (add64 s.1 input.length) s.2

/-- The C struct `XXH64_state_t`: `total_len`, the four accumulators, and the partial
32-byte buffer (`mem64`/`memsize`). -/
structure XXH64_state where
  total_len : Nat
  acc : XXHAcc
  buf : List Nat
  deriving Repr, DecidableEq

/-- The C function `XXH64_reset`. -/
def XXH64_reset (seed : Nat) : XXH64_state :=
  { total_len := 0, acc := initAcc seed, buf := [] }

/-- The C function `XXH64_update`: fill the partial buffer first, process it when it reaches
32 bytes, then consume full 32-byte blocks of the rest and store the
remainder back in the buffer. -/
def XXH64_update (s : XXH64_state) (input : List Nat) : XXH64_state :=
  let total := s.total_len + input.length
  if s.buf.length ≠ 0 then
    let remaining := 32 - s.buf.length
    let toCopy := min input.length remaining
    let buf1 := s.buf ++ input.take toCopy
    let rest := input.drop toCopy
    if buf1.length = 32 then
      let p := processStripes (round4 s.acc buf1) rest
      { total_len := total, acc := p.1, buf := p.2 }
    else
      { total_len := total, acc := s.acc, buf := buf1 }
  else
    let p := processStripes s.acc input
    { total_len := total, acc := p.1, buf := p.2 }

/-- The C function `XXH64_digest`. -/
def XXH64_digest (s : XXH64_state) : Nat :=
  let h := if 32 ≤ s.total_len then mergeAcc s.acc else add64 s.acc.v3 PRIME64_5
  finishTail (add64 h s.total_len) s.buf

/-! ### Block decoder and rule applicator (src/mini-rosetta-translator.h) -/

structure X86InstructionDef where
  opcode : Nat
  mnemonic : String
  size : Nat
  has_modrm : Bool
  has_sib : Bool
  has_displacement : Bool
  has_immediate : Bool
  deriving Repr, DecidableEq, Inhabited

/-- The x86 definitions seeded by `create_default_definitions("x86")`. -/
def default_x86_defs : List X86InstructionDef :=
  [ ⟨0x90, "NOP", 1, false, false, false, false⟩,
    ⟨0x89, "MOV", 2, true, true, true, false⟩,
    ⟨0x01, "ADD", 2, true, true, true, false⟩,
    ⟨0x29, "SUB", 2, true, true, true, false⟩,
    ⟨0xE8, "CALL", 5, false, false, false, true⟩,
    ⟨0xC3, "RET", 1, false, false, false, false⟩,
    ⟨0x0F, "SIMD_PREFIX", 1, false, false, false, false⟩ ]

structure X86DecodedInst where
  opcode : Nat
  modrm : Nat
  sib : Nat
  displacement : Int
  immediate : Int
  length : Nat
  deriving Repr, DecidableEq, Inhabited

/-- The C cast `static_cast<int8_t>` of a byte. -/
def sint8 (b : Nat) : Int :=
  if b % 256 < 128 then (b % 256 : Int) else (b % 256 : Int) - 256

/-- The little-endian `int32_t` read used for displacements and immediates. -/
def sint32 (l : List Nat) : Int :=
  let v := read32 l
  if v < 2 ^ 31 then (v : Int) else (v : Int) - 2 ^ 32

/-- The C function `decode_x86_instruction(code, offset, max_length)`: read the opcode,
consult the definition table, and conditionally consume ModR/M, SIB,
displacement and immediate bytes, each guarded by an in-bounds check; a
guard failure skips that field (the C code falls through).  Only an
out-of-bounds opcode yields length 0. -/
def decode_x86_instruction (defs : List X86InstructionDef) (code : List Nat)
    (offset maxLength : Nat) : X86DecodedInst :=
  if maxLength ≤ offset then ⟨0, 0, 0, 0, 0, 0⟩
  else
    let opcode := code.getD offset 0
    match defs.find? (fun d => d.opcode == opcode) with
    | none => ⟨opcode, 0, 0, 0, 0, 1⟩
    | some d =>
      if d.has_modrm ∧ offset + 1 < maxLength then
        let modrm := code.getD (offset + 1) 0
        let md := (modrm >>> 6) &&& 3
        let rm := modrm &&& 7
        let s2 :=
          if d.has_sib ∧ md ≠ 3 ∧ rm = 4 ∧ offset + 2 < maxLength then
            (code.getD (offset + 2) 0, 3)
          else (0, 2)
        let s3 :=
          if d.has_displacement then
            if md = 1 ∧ offset + s2.2 < maxLength then
              (sint8 (code.getD (offset + s2.2) 0), s2.2 + 1)
            else if md = 2 ∧ offset + s2.2 + 3 < maxLength then
              (sint32 (code.drop (offset + s2.2)), s2.2 + 4)
            else ((0 : Int), s2.2)
          else ((0 : Int), s2.2)
        let s4 :=
          if d.has_immediate ∧ offset + s3.2 + 3 < maxLength then
            (sint32 (code.drop (offset + s3.2)), s3.2 + 4)
          else ((0 : Int), s3.2)
        ⟨opcode, modrm, s2.1, s3.1, s4.1, s4.2⟩
      else
        let s4 :=
          if d.has_immediate ∧ offset + 1 + 3 < maxLength then
            (sint32 (code.drop (offset + 1)), 1 + 4)
          else ((0 : Int), 1)
        ⟨opcode, 0, 0, 0, s4.1, s4.2⟩

/-- Whether an opcode terminates a basic block (`RET`, `JMP`, `CALL`). -/
def isTerminator (opcode : Nat) : Prop :=
  opcode = 0xC3 ∨ opcode = 0xE9 ∨ opcode = 0xE8

instance (opcode : Nat) : Decidable (isTerminator opcode) := by
  unfold isTerminator; infer_instance

/-- The loop of `analyze_x86_block` with explicit fuel (each iteration
consumes at least one byte, so `maxLength - offset` fuel suffices). -/
def analyzeGo (defs : List X86InstructionDef) (code : List Nat)
    (maxLength : Nat) : Nat → Nat → Nat
  | 0, offset => offset
  | fuel + 1, offset =>
    if offset < maxLength then
      if (decode_x86_instruction defs code offset maxLength).length = 0 then offset
      else if isTerminator (decode_x86_instruction defs code offset maxLength).opcode then
        offset + (decode_x86_instruction defs code offset maxLength).length
      else analyzeGo defs code maxLength fuel
        (offset + (decode_x86_instruction defs code offset maxLength).length)
    else offset

/-- The loop body of `analyze_x86_block`, starting from `offset`. -/
def analyze_x86_block_from (defs : List X86InstructionDef) (code : List Nat)
    (maxLength offset : Nat) : Nat :=
  analyzeGo defs code maxLength (maxLength - offset) offset

/-- The C function `analyze_x86_block(code, max_length)`. -/
def analyze_x86_block (defs : List X86InstructionDef) (code : List Nat)
    (maxLength : Nat) : Nat :=
  analyze_x86_block_from defs code maxLength 0

structure TranslationRule where
  x86_opcode : Nat
  arm_opcodes : List Nat
  description : String
  deriving Repr, DecidableEq

/-- The rules seeded by `create_default_definitions("translation")`. -/
def default_translation_rules : List TranslationRule :=
  [ ⟨0x90, [0xD503201F], "NOP to NOP"⟩,
    ⟨0x89, [0xAA0003E0], "MOV reg reg"⟩,
    ⟨0x01, [0x8B010000], "ADD reg reg"⟩,
    ⟨0x29, [0xCB010000], "SUB reg reg"⟩,
    ⟨0xE8, [0xF81F0FE0, 0x94000000], "CALL"⟩,
    ⟨0xC3, [0xF84107E0, 0xD65F03C0], "RET"⟩,
    ⟨0x0F, [0x4EA01C00], "SIMD"⟩ ]

/-- The C function `translate_x86_instruction`: scan the rule table in order; the first rule
whose guest opcode matches contributes its host words; otherwise a single
host NOP word. -/
def translate_x86_instruction (rules : List TranslationRule)
    (inst : X86DecodedInst) : List Nat :=
  match rules with
  | [] => [0xD503201F]
  | r :: rest =>
    if r.x86_opcode = inst.opcode then r.arm_opcodes
    else translate_x86_instruction rest inst

/-! ### Signature store (src/cache-signatures.h) -/

structure BlockSignature where
  hash : Nat
  btype : Nat
  address : Nat
  size : Nat
  /-- The `size` bytes in memory at `address`, which `find_match` reads as
  the reference block for the fuzzy comparison. -/
  refBytes : List Nat
  mask : List Nat
  similarity_threshold : ℚ
  deriving Repr, DecidableEq, Inhabited

/-- The `matches`/`total` counting loop of `compare_blocks_with_mask`. -/
def countMatches : List Nat → List Nat → List Nat → Nat × Nat
  | b1 :: t1, b2 :: t2, m :: tm =>
    let rest := countMatches t1 t2 tm
    if m = 1 then (rest.1 + (if b1 = b2 then 1 else 0), rest.2 + 1) else rest
  | _, _, _ => (0, 0)

/-- The C function `compare_blocks_with_mask`: 0 on any length mismatch, otherwise the
fraction of matching bytes among the mask-significant positions (0 when no
position is significant). -/
def compare_blocks_with_mask (block1 block2 mask : List Nat) : ℚ :=
  if block1.length ≠ block2.length ∨ block1.length ≠ mask.length then 0
  else
    let c := countMatches block1 block2 mask
    if 0 < c.2 then (c.1 : ℚ) / (c.2 : ℚ) else 0

/-- The fuzzy linear scan inside `find_match`: skip signatures whose size
differs from the query, return the first whose masked similarity reaches its
threshold. -/
def find_fuzzy (db : List BlockSignature) (code : List Nat) :
    Option BlockSignature :=
  match db with
  | [] => none
  | sig :: rest =>
    if sig.size ≠ code.length then find_fuzzy rest code
    else if sig.similarity_threshold ≤ compare_blocks_with_mask code sig.refBytes sig.mask then
      some sig
    else find_fuzzy rest code

/-- The C function `find_match`: memo check, then exact fingerprint match, then the fuzzy
scan (recording a fuzzy hit in the memo). -/
def find_match (match_cache : List (Nat × Nat)) (db : List BlockSignature)
    (code : List Nat) : Option BlockSignature × List (Nat × Nat) :=
  let h := XXH64 code 0
  match (match_cache.find? (fun p => p.1 == h)).bind
      (fun p => db.find? (fun s => s.hash == p.2)) with
  | some s => (some s, match_cache)
  | none =>
    match db.find? (fun s => s.hash == h) with
    | some s => (some s, match_cache)
    | none =>
      match find_fuzzy db code with
      | some s => (some s, (h, s.hash) :: match_cache)
      | none => (none, match_cache)

/-! ### Two-tier translation cache (src/cache.h) -/

def CACHE_MAGIC : Nat := 0x415243524F535345
def CACHE_VERSION : Nat := 1
def MAX_L1_CACHE_ENTRIES : Nat := 1024

structure EnhancedTranslationEntry where
  x86_addr : Nat
  arm_addr : Nat
  x86_size : Nat
  arm_size : Nat
  x86_hash : Nat
  last_access : Nat
  access_count : Nat
  is_hot : Bool
  flags : Nat
  deriving Repr, DecidableEq, Inhabited

/-- The reverse scan of `save_to_l1_cache`'s eviction: remove the entry
closest to the back (least recently used) whose `is_hot` is false, or report
that every entry is hot. -/
def removeLastCold : List EnhancedTranslationEntry →
    Option (List EnhancedTranslationEntry)
  | [] => none
  | e :: rest =>
    match removeLastCold rest with
    | some rest' => some (e :: rest')
    | none => if e.is_hot then none else some rest

/-- The eviction step of `save_to_l1_cache` at capacity. -/
def evictOne (l : List EnhancedTranslationEntry) :
    List EnhancedTranslationEntry :=
  match removeLastCold l with
  | some l' => l'
  | none => l.dropLast

/-- The C function `save_to_l1_cache`.  The list is kept in MRU-first order; `now` stands
for `std::chrono::system_clock::now()`. -/
def save_to_l1_cache (l1 : List EnhancedTranslationEntry)
    (entry : EnhancedTranslationEntry) (now : Nat) :
    List EnhancedTranslationEntry :=
  match l1.findIdx? (fun e => e.x86_addr == entry.x86_addr && e.x86_hash == entry.x86_hash) with
  | some i =>
    let old := l1.getD i default
    let upd := { old with
      arm_addr := entry.arm_addr, arm_size := entry.arm_size,
      last_access := now, access_count := old.access_count + 1,
      is_hot := decide (10 < old.access_count + 1) }
    upd :: l1.eraseIdx i
  | none =>
    let newEntry := { entry with last_access := now, access_count := 1 }
    let base := if MAX_L1_CACHE_ENTRIES ≤ l1.length then evictOne l1 else l1
    newEntry :: base

/-- The C function `lookup_l1_cache`: the returned entry is the pre-update snapshot (the C
code copies `*it` into `result` before bumping the counters). -/
def lookup_l1_cache (l1 : List EnhancedTranslationEntry)
    (x86_addr block_hash now : Nat) :
    Option EnhancedTranslationEntry × List EnhancedTranslationEntry :=
  match l1.findIdx? (fun e => e.x86_addr == x86_addr && e.x86_hash == block_hash) with
  | some i =>
    let old := l1.getD i default
    let upd := { old with
      last_access := now, access_count := old.access_count + 1,
      is_hot := decide (10 < old.access_count + 1) }
    (some old, upd :: l1.eraseIdx i)
  | none => (none, l1)

structure CacheFileHeader where
  magic : Nat
  version : Nat
  entry_count : Nat
  x86_hash : Nat
  creation_time : Nat
  last_access : Nat
  hit_count : Nat
  deriving Repr, DecidableEq, Inhabited

structure CacheFileEntry where
  x86_addr : Nat
  x86_size : Nat
  x86_hash : Nat
  arm_offset : Nat
  arm_size : Nat
  execution_count : Nat
  last_execution : Nat
  flags : Nat
  deriving Repr, DecidableEq, Inhabited

/-- A tier-2 cache file: the 64-byte header, the entry table of
`header.entry_count` records, and the contiguous host-code payload that
follows the table. -/
structure CacheFile where
  header : CacheFileHeader
  entries : List CacheFileEntry
  data : List Nat
  deriving Repr, DecidableEq, Inhabited

/-- The entry-writing loop of `save_l2_cache`: `arm_offset` is the running
prefix sum of the `arm_size`s, in the order the entries are iterated. -/
def buildFileEntries (now : Nat) :
    List EnhancedTranslationEntry → Nat → List CacheFileEntry
  | [], _ => []
  | e :: rest, off =>
    ⟨e.x86_addr, e.x86_size, e.x86_hash, off, e.arm_size, e.access_count,
      now, e.flags⟩ :: buildFileEntries now rest (off + e.arm_size)

/-- The C function `save_l2_cache(cache_file, entries, arm_code, x86_hash)`. -/
def save_l2_cache (entries : List EnhancedTranslationEntry)
    (arm_code : List Nat) (x86_hash now : Nat) : CacheFile :=
  { header := ⟨CACHE_MAGIC, CACHE_VERSION, entries.length, x86_hash, now, now, 0⟩,
    entries := buildFileEntries now entries 0,
    data := arm_code }

/-- Converts an on-disk record to the in-memory entry shape (shared by
`load_l2_cache` and `lookup_l2_cache`; `arm_addr` is reset to 0). -/
def entryOfFileEntry (e : CacheFileEntry) : EnhancedTranslationEntry :=
  ⟨e.x86_addr, 0, e.x86_size, e.arm_size, e.x86_hash, e.last_execution,
    e.execution_count, decide (10 < e.execution_count), e.flags⟩

/-- The C function `lookup_l2_cache`: validate magic and version, search the entry table,
read the host bytes at `data_start + arm_offset`, and update the header and
the found record in place.  (It never checks the header's binary
fingerprint.) -/
def lookup_l2_cache (f : CacheFile) (x86_addr block_hash now : Nat) :
    Option (EnhancedTranslationEntry × List Nat) × CacheFile :=
  if f.header.magic ≠ CACHE_MAGIC ∨ f.header.version ≠ CACHE_VERSION then (none, f)
  else
    match f.entries.findIdx? (fun e => e.x86_addr == x86_addr && e.x86_hash == block_hash) with
    | none => (none, f)
    | some i =>
      let e := f.entries.getD i default
      let arm_code := (f.data.drop e.arm_offset).take e.arm_size
      let e' := { e with execution_count := e.execution_count + 1, last_execution := now }
      let f' : CacheFile :=
        { header := { f.header with hit_count := f.header.hit_count + 1, last_access := now },
          entries := f.entries.set i e',
          data := f.data }
      (some (entryOfFileEntry e, arm_code), f')

/-- The C function `load_l2_cache`: validates magic, version and (when the caller supplied
one) the binary fingerprint; on success converts all records and bumps the
header statistics. -/
def load_l2_cache (f : CacheFile) (expected_hash now : Nat) :
    Option (List EnhancedTranslationEntry × List Nat) × CacheFile :=
  if f.header.magic ≠ CACHE_MAGIC ∨ f.header.version ≠ CACHE_VERSION then (none, f)
  else if expected_hash ≠ 0 ∧ f.header.x86_hash ≠ expected_hash then (none, f)
  else
    let total := f.entries.foldl (fun m e => max m (e.arm_offset + e.arm_size)) 0
    let got := f.data.take total
    let arm_code := got ++ List.replicate (total - got.length) 0
    let entries := f.entries.map entryOfFileEntry
    let f' : CacheFile :=
      { f with header := { f.header with hit_count := f.header.hit_count + 1, last_access := now } }
    (some (entries, arm_code), f')

/-- The C method `TranslationCache::store`: hash the guest bytes, build a fresh entry
(`access_count = 1`, `is_hot = false`) and insert it into tier 1. -/
def store (l1 : List EnhancedTranslationEntry) (x86_addr : Nat)
    (x86_code : List Nat) (arm_addr : Nat) (arm_code : List Nat) (now : Nat) :
    List EnhancedTranslationEntry :=
  let block_hash := XXH64 x86_code 0
  let entry : EnhancedTranslationEntry :=
    ⟨x86_addr, arm_addr, x86_code.length, arm_code.length, block_hash, now, 1, false, 0⟩
  save_to_l1_cache l1 entry now

/-- The C method `TranslationCache::checkpoint`: persist the whole tier-1 list plus the
host arena, with the placeholder hash `XXH64(nullptr, 0, 0)`. -/
def checkpoint (l1 : List EnhancedTranslationEntry)
    (full_arm_code : List Nat) (now : Nat) : CacheFile :=
  save_l2_cache l1 full_arm_code (XXH64 [] 0) now

inductive CacheLevel
  | L1_MEMORY
  | L2_PERSISTENT
  | NOT_FOUND
  deriving Repr, DecidableEq, Inhabited

/-- The C method `TranslationCache::lookup`: try tier 1, then tier 2 (promoting a tier-2
hit into tier 1 via `save_to_l1_cache`).  Returns the lookup result, the new
tier-1 list, the possibly rewritten file, and the host bytes read. -/
def cache_lookup (l1 : List EnhancedTranslationEntry) (f : CacheFile)
    (x86_addr : Nat) (x86_code : List Nat) (now : Nat) :
    (CacheLevel × Option EnhancedTranslationEntry) ×
      List EnhancedTranslationEntry × CacheFile × List Nat :=
  let block_hash := XXH64 x86_code 0
  match lookup_l1_cache l1 x86_addr block_hash now with
  | (some e, l1') => ((CacheLevel.L1_MEMORY, some e), l1', f, [])
  | (none, l1') =>
    match lookup_l2_cache f x86_addr block_hash now with
    | (some (e, arm), f') =>
      ((CacheLevel.L2_PERSISTENT, some e), save_to_l1_cache l1' e now, f', arm)
    | (none, f') => ((CacheLevel.NOT_FOUND, none), l1', f', [])

/-! ### Asynchronous persistence engine (src/cache-persistence.h) -/

structure WriteCacheJob where
  cache_file : String
  data : List Nat
  offset : Nat
  /-- Whether `job.callback` is non-null. -/
  has_callback : Bool
  deriving Repr, DecidableEq, Inhabited

/-- The file system as an association list (latest write shadows). -/
abbrev FileSys := List (String × List Nat)

def fsRead (fs : FileSys) (path : String) : Option (List Nat) :=
  (fs.find? (fun e => e.1 == path)).map (·.2)

def fsWrite (fs : FileSys) (path : String) (content : List Nat) : FileSys :=
  (path, content) :: fs

/-- The C function `write_to_file`: offset 0 opens in truncate mode (the new content is
exactly `data`); a positive offset opens read+write (creating if absent),
seeks, and overwrites `data.length` bytes in place. -/
def write_to_file (existing : Option (List Nat)) (data : List Nat)
    (offset : Nat) : List Nat :=
  if offset = 0 then data
  else
    let cur := existing.getD []
    (cur ++ List.replicate (offset - cur.length) 0).take offset ++ data ++
      cur.drop (offset + data.length)

/-- One iteration of `worker_function` on a popped job: the write, the
counter updates, and the callback are all inside
`if (!job.cache_file.empty())`, so a job with an empty path (the `flush`
sentinel) performs nothing and its callback is never invoked.  Returns the
new file system and the jobs whose callback was fired. -/
def processJob (fs : FileSys) (job : WriteCacheJob) :
    FileSys × List WriteCacheJob :=
  if job.cache_file ≠ "" then
    (fsWrite fs job.cache_file (write_to_file (fsRead fs job.cache_file) job.data job.offset),
     if job.has_callback then [job] else [])
  else (fs, [])

/-- The worker draining a FIFO queue of jobs in submission order. -/
def run_worker (fs : FileSys) (jobs : List WriteCacheJob) :
    FileSys × List WriteCacheJob :=
  jobs.foldl (fun acc j =>
    let s := processJob acc.1 j
    (s.1, acc.2 ++ s.2)) (fs, [])

/-- The sentinel job `flush` pushes: empty path, a callback that releases
the waiting caller. -/
def flush_sentinel : WriteCacheJob := ⟨"", [], 0, true⟩

/-! ## Theorems -/

/-! ### C2 — streaming/one-shot hash equivalence -/

/-- Any sufficient fuel computes the same stripe loop. -/
theorem processStripesGo_fuel :
    ∀ (n m : Nat) (a : XXHAcc) (l : List Nat), l.length ≤ n → l.length ≤ m →
      processStripesGo n a l = processStripesGo m a l := by
  intro n
  induction n with
  | zero =>
    intro m a l hn _
    have hnil : l = [] := List.length_eq_zero.mp (by omega)
    subst hnil
    cases m <;> rfl
  | succ n ih =>
    intro m a l hn hm
    cases m with
    | zero =>
      have hnil : l = [] := List.length_eq_zero.mp (by omega)
      subst hnil
      rfl
    | succ k =>
      show (if 32 ≤ l.length then processStripesGo n (round4 a (l.take 32)) (l.drop 32)
            else (a, l)) =
          (if 32 ≤ l.length then processStripesGo k (round4 a (l.take 32)) (l.drop 32)
            else (a, l))
      by_cases h : 32 ≤ l.length
      · rw [if_pos h, if_pos h]
        exact ih k _ _ (by simp only [List.length_drop]; omega)
          (by simp only [List.length_drop]; omega)
      · rw [if_neg h, if_neg h]

theorem processStripes_short {l : List Nat} (a : XXHAcc) (h : l.length < 32) :
    processStripes a l = (a, l) := by
  unfold processStripes
  cases hl : l.length with
  | zero => rfl
  | succ k =>
    show (if 32 ≤ l.length then processStripesGo k (round4 a (l.take 32)) (l.drop 32)
          else (a, l)) = (a, l)
    rw [if_neg (by omega)]

theorem processStripes_step {l : List Nat} (a : XXHAcc) (h : 32 ≤ l.length) :
    processStripes a l = processStripes (round4 a (l.take 32)) (l.drop 32) := by
  unfold processStripes
  obtain ⟨m, hm⟩ : ∃ m, l.length = m + 1 := ⟨l.length - 1, by omega⟩
  rw [hm]
  show (if 32 ≤ l.length then processStripesGo m (round4 a (l.take 32)) (l.drop 32)
        else (a, l)) = _
  rw [if_pos h]
  exact processStripesGo_fuel m (l.drop 32).length _ _
    (by simp only [List.length_drop]; omega) le_rfl

theorem processStripes_append_aux (n : Nat) :
    ∀ (x : List Nat), x.length ≤ n → ∀ (a : XXHAcc) (y : List Nat),
      processStripes a (x ++ y) =
        processStripes (processStripes a x).1 ((processStripes a x).2 ++ y) := by
  induction n with
  | zero =>
    intro x hx a y
    rw [processStripes_short (l := x) a (by omega)]
  | succ n ih =>
    intro x hx a y
    by_cases h : 32 ≤ x.length
    · have hxy : 32 ≤ (x ++ y).length := by
        simp only [List.length_append]; omega
      rw [processStripes_step a hxy, List.take_append_of_le_length h,
        List.drop_append_of_le_length h, processStripes_step a h]
      exact ih (x.drop 32) (by simp only [List.length_drop]; omega) _ y
    · rw [processStripes_short (l := x) a (by omega)]

/-- Splitting the input of the stripe loop at any point gives the same
accumulators: the loop is resumable from the remainder. -/
theorem processStripes_append (x y : List Nat) (a : XXHAcc) :
    processStripes a (x ++ y) =
      processStripes (processStripes a x).1 ((processStripes a x).2 ++ y) :=
  processStripes_append_aux x.length x le_rfl a y

theorem processStripes_rem_lt_aux (n : Nat) :
    ∀ (l : List Nat), l.length ≤ n → ∀ (a : XXHAcc),
      (processStripes a l).2.length < 32 := by
  induction n with
  | zero =>
    intro l hl a
    rw [processStripes_short a (by omega)]
    show l.length < 32
    omega
  | succ n ih =>
    intro l hl a
    by_cases h : 32 ≤ l.length
    · rw [processStripes_step a h]
      exact ih (l.drop 32) (by simp only [List.length_drop]; omega) _
    · rw [processStripes_short a (by omega)]
      show l.length < 32
      omega

/-- The stripe loop always leaves fewer than 32 unconsumed bytes. -/
theorem processStripes_rem_lt (a : XXHAcc) (l : List Nat) :
    (processStripes a l).2.length < 32 :=
  processStripes_rem_lt_aux l.length l le_rfl a

/-- The body of `XXH64_update` on an explicit state whose buffer holds fewer
than 32 bytes is the greedy stripe consumption of `buf ++ input`. -/
theorem XXH64_update_mk (tl : Nat) (acc : XXHAcc) (buf input : List Nat)
    (hrem : buf.length < 32) :
    XXH64_update ⟨tl, acc, buf⟩ input =
      ⟨tl + input.length, (processStripes acc (buf ++ input)).1,
        (processStripes acc (buf ++ input)).2⟩ := by
  unfold XXH64_update
  dsimp only
  by_cases hbuf : buf.length = 0
  · have hnil : buf = [] := List.length_eq_zero.mp hbuf
    subst hnil
    simp
  · rw [if_pos (by exact hbuf)]
    by_cases hfill : (buf ++ input.take (min input.length (32 - buf.length))).length = 32
    · rw [if_pos hfill]
      have hsplit : buf ++ input =
          (buf ++ input.take (min input.length (32 - buf.length))) ++
            input.drop (min input.length (32 - buf.length)) := by
        rw [List.append_assoc, List.take_append_drop]
      have h32 : 32 ≤ ((buf ++ input.take (min input.length (32 - buf.length))) ++
          input.drop (min input.length (32 - buf.length))).length := by
        simp only [List.length_append]
        simp only [List.length_append] at hfill
        omega
      have key : processStripes acc (buf ++ input) =
          processStripes
            (round4 acc (buf ++ input.take (min input.length (32 - buf.length))))
            (input.drop (min input.length (32 - buf.length))) := by
        rw [hsplit, processStripes_step acc h32, List.take_left' hfill,
          List.drop_left' hfill]
      rw [key]
    · rw [if_neg hfill]
      have htc : min input.length (32 - buf.length) = input.length := by
        rcases Nat.lt_or_ge input.length (32 - buf.length) with hlt | hge
        · exact Nat.min_eq_left (Nat.le_of_lt hlt)
        · exfalso
          apply hfill
          rw [Nat.min_eq_right hge]
          simp only [List.length_append]
          rw [List.length_take_of_le (by omega)]
          omega
      rw [htc, List.take_length] at hfill ⊢
      have hshort : (buf ++ input).length < 32 := by
        simp only [List.length_append] at hfill ⊢
        omega
      rw [processStripes_short _ hshort]

/-- Updating: `XXH64_update` takes the state reached after hashing `c` to the state
reached after hashing `c ++ input`. -/
theorem XXH64_update_state (seed : Nat) (c input : List Nat) :
    XXH64_update
        ⟨c.length, (processStripes (initAcc seed) c).1,
          (processStripes (initAcc seed) c).2⟩ input =
      ⟨(c ++ input).length, (processStripes (initAcc seed) (c ++ input)).1,
        (processStripes (initAcc seed) (c ++ input)).2⟩ := by
  rw [XXH64_update_mk _ _ _ _ (processStripes_rem_lt (initAcc seed) c),
    processStripes_append c input (initAcc seed)]
  simp [List.length_append]

theorem foldl_update_state (seed : Nat) :
    ∀ (parts : List (List Nat)) (c : List Nat),
      parts.foldl XXH64_update
          ⟨c.length, (processStripes (initAcc seed) c).1, (processStripes (initAcc seed) c).2⟩ =
        ⟨(c ++ parts.flatten).length, (processStripes (initAcc seed) (c ++ parts.flatten)).1,
          (processStripes (initAcc seed) (c ++ parts.flatten)).2⟩ := by
  intro parts
  induction parts with
  | nil => intro c; simp
  | cons p rest ih =>
    intro c
    simp only [List.foldl_cons, List.flatten_cons]
    rw [XXH64_update_state seed c p, ih (c ++ p), List.append_assoc]

/-- Digesting: `XXH64_digest` of the state reached after hashing `c` equals the
one-shot hash of `c`. -/
theorem XXH64_digest_state (seed : Nat) (c : List Nat) :
    XXH64_digest
        ⟨c.length, (processStripes (initAcc seed) c).1, (processStripes (initAcc seed) c).2⟩ =
      XXH64 c seed := by
  unfold XXH64_digest XXH64
  by_cases h : 32 ≤ c.length
  · simp [h]
  · rw [processStripes_short _ (by omega)]
    simp only [h, if_false, ite_false]
    have : add64 (initAcc seed).v3 PRIME64_5 = add64 seed PRIME64_5 := by
      show add64 (add64 seed 0) PRIME64_5 = add64 seed PRIME64_5
      unfold add64
      rw [Nat.add_zero, Nat.mod_add_mod]
    rw [this]

/-- C2.  Hash streaming equivalence: for every seed and every partition
`b = b1 ∥ b2 ∥ … ∥ bn` of a byte sequence, resetting the streaming state with
the seed, updating with the parts in order, and taking the digest yields
exactly the one-shot `XXH64(b, len(b), seed)`. -/
theorem c2_hash_streaming_equivalence (parts : List (List Nat)) (seed : Nat) :
    XXH64_digest (parts.foldl XXH64_update (XXH64_reset seed)) =
      XXH64 parts.flatten seed := by
  have hreset : XXH64_reset seed =
      ⟨([] : List Nat).length, (processStripes (initAcc seed) []).1,
        (processStripes (initAcc seed) []).2⟩ := by
    rw [processStripes_short _ (by simp)]
    rfl
  rw [hreset, foldl_update_state seed parts [], List.nil_append]
  exact XXH64_digest_state seed parts.flatten

/-! ### C3/C4 — decoder out-of-bounds behaviour and block boundaries -/

/-- A decode starting in bounds always consumes at least the opcode byte. -/
theorem decode_pos (defs : List X86InstructionDef) (code : List Nat)
    (offset maxLength : Nat) (h : offset < maxLength) :
    0 < (decode_x86_instruction defs code offset maxLength).length := by
  unfold decode_x86_instruction
  rw [if_neg (by omega)]
  dsimp only
  repeat' split
  all_goals (try dsimp only)
  all_goals omega

/-- A decode starting in bounds never consumes past `max_length`: each field
read is guarded by an in-bounds check. -/
theorem decode_le (defs : List X86InstructionDef) (code : List Nat)
    (offset maxLength : Nat) (h : offset < maxLength) :
    offset + (decode_x86_instruction defs code offset maxLength).length ≤ maxLength := by
  unfold decode_x86_instruction
  rw [if_neg (by omega)]
  dsimp only
  repeat' split
  all_goals (try dsimp only)
  all_goals omega

theorem analyzeGo_zero (defs : List X86InstructionDef) (code : List Nat)
    (maxLength offset : Nat) : analyzeGo defs code maxLength 0 offset = offset := rfl

theorem analyzeGo_succ (defs : List X86InstructionDef) (code : List Nat)
    (maxLength fuel offset : Nat) :
    analyzeGo defs code maxLength (fuel + 1) offset =
      if offset < maxLength then
        if (decode_x86_instruction defs code offset maxLength).length = 0 then offset
        else if isTerminator (decode_x86_instruction defs code offset maxLength).opcode then
          offset + (decode_x86_instruction defs code offset maxLength).length
        else analyzeGo defs code maxLength fuel
          (offset + (decode_x86_instruction defs code offset maxLength).length)
      else offset := rfl

/-- Any sufficient fuel computes the same block-analysis loop. -/
theorem analyzeGo_fuel (defs : List X86InstructionDef) (code : List Nat)
    (maxLength : Nat) :
    ∀ (n m offset : Nat), maxLength - offset ≤ n → maxLength - offset ≤ m →
      analyzeGo defs code maxLength n offset = analyzeGo defs code maxLength m offset := by
  intro n
  induction n with
  | zero =>
    intro m offset hn _
    cases m with
    | zero => rfl
    | succ k =>
      rw [analyzeGo_zero, analyzeGo_succ, if_neg (by omega)]
  | succ n ih =>
    intro m offset hn hm
    cases m with
    | zero =>
      rw [analyzeGo_zero, analyzeGo_succ, if_neg (by omega)]
    | succ k =>
      rw [analyzeGo_succ, analyzeGo_succ]
      by_cases h : offset < maxLength
      · rw [if_pos h, if_pos h]
        by_cases h0 : (decode_x86_instruction defs code offset maxLength).length = 0
        · rw [if_pos h0, if_pos h0]
        · rw [if_neg h0, if_neg h0]
          by_cases ht : isTerminator (decode_x86_instruction defs code offset maxLength).opcode
          · rw [if_pos ht, if_pos ht]
          · rw [if_neg ht, if_neg ht]
            have hpos := Nat.pos_of_ne_zero h0
            exact ih k _ (by omega) (by omega)
      · rw [if_neg h, if_neg h]

/-- The loop result never exceeds `max_length` (starting from any in-range
offset). -/
theorem analyzeGo_le (defs : List X86InstructionDef) (code : List Nat)
    (maxLength : Nat) :
    ∀ (n offset : Nat), offset ≤ maxLength →
      analyzeGo defs code maxLength n offset ≤ maxLength := by
  intro n
  induction n with
  | zero => intro offset h; rw [analyzeGo_zero]; exact h
  | succ n ih =>
    intro offset h
    rw [analyzeGo_succ]
    by_cases hofs : offset < maxLength
    · rw [if_pos hofs]
      by_cases h0 : (decode_x86_instruction defs code offset maxLength).length = 0
      · rw [if_pos h0]; exact h
      · rw [if_neg h0]
        by_cases ht : isTerminator (decode_x86_instruction defs code offset maxLength).opcode
        · rw [if_pos ht]
          exact decode_le defs code offset maxLength hofs
        · rw [if_neg ht]
          exact ih _ (decode_le defs code offset maxLength hofs)
    · rw [if_neg hofs]; exact h

/-- C3 counterexample.  With the seeded defaults, opcode `0x89` requires a
ModR/M byte; decoding the one-byte slice `[0x89]` leaves that required byte
beyond the slice end, yet the decoder returns consumed length 1, not 0. -/
theorem c3_counterexample_required_byte_missing :
    (default_x86_defs.find? (fun d => d.opcode == 0x89)).map (fun d => d.has_modrm) =
        some true ∧
    (decode_x86_instruction default_x86_defs [0x89] 0 1).length = 1 := by
  decide

/-- C3 (amended).  The decoder returns consumed-length 0 exactly when the
starting offset lies at or beyond the slice end, i.e. when the opcode byte
itself is unreadable; a later required byte (ModR/M, SIB, displacement or
immediate) beyond the slice end is silently skipped and the consumed length
stays positive, counting only the bytes actually read. -/
theorem c3_decoder_oob (defs : List X86InstructionDef) (code : List Nat)
    (offset maxLength : Nat) :
    (decode_x86_instruction defs code offset maxLength).length = 0 ↔
      maxLength ≤ offset := by
  constructor
  · intro h0
    by_contra hlt
    have := decode_pos defs code offset maxLength (by omega)
    omega
  · intro hle
    unfold decode_x86_instruction
    rw [if_pos hle]

/-- C4.  Block boundary: (1) under the seeded default guest definitions the
example block `90 89 C3 01 C3 29 D8 0F 28 C1 C3` has length 11; (2) the
returned block length never exceeds the `max_length` cap (1024 at the call
sites); (3) the analysis loop stops exactly at the first decode failure or
after consuming the first instruction whose opcode is a terminator
(`0xC3`, `0xE8`, `0xE9`), and otherwise continues past the instruction. -/
theorem c4_block_boundary :
    analyze_x86_block default_x86_defs
        [0x90, 0x89, 0xC3, 0x01, 0xC3, 0x29, 0xD8, 0x0F, 0x28, 0xC1, 0xC3] 1024 = 11 ∧
    (∀ (defs : List X86InstructionDef) (code : List Nat) (maxLength : Nat),
      analyze_x86_block defs code maxLength ≤ maxLength) ∧
    (∀ (defs : List X86InstructionDef) (code : List Nat) (maxLength offset : Nat),
      offset < maxLength →
      ((decode_x86_instruction defs code offset maxLength).length = 0 →
        analyze_x86_block_from defs code maxLength offset = offset) ∧
      ((decode_x86_instruction defs code offset maxLength).length ≠ 0 →
        isTerminator (decode_x86_instruction defs code offset maxLength).opcode →
        analyze_x86_block_from defs code maxLength offset =
          offset + (decode_x86_instruction defs code offset maxLength).length) ∧
      ((decode_x86_instruction defs code offset maxLength).length ≠ 0 →
        ¬ isTerminator (decode_x86_instruction defs code offset maxLength).opcode →
        analyze_x86_block_from defs code maxLength offset =
          analyze_x86_block_from defs code maxLength
            (offset + (decode_x86_instruction defs code offset maxLength).length))) := by
  refine ⟨by decide, ?_, ?_⟩
  · intro defs code maxLength
    exact analyzeGo_le defs code maxLength _ 0 (Nat.zero_le _)
  · intro defs code maxLength offset hofs
    have hsucc : ∃ m, maxLength - offset = m + 1 := ⟨maxLength - offset - 1, by omega⟩
    obtain ⟨m, hm⟩ := hsucc
    refine ⟨?_, ?_, ?_⟩
    · intro h0
      show analyzeGo defs code maxLength (maxLength - offset) offset = offset
      rw [hm, analyzeGo_succ, if_pos hofs, if_pos h0]
    · intro h0 ht
      show analyzeGo defs code maxLength (maxLength - offset) offset = _
      rw [hm, analyzeGo_succ, if_pos hofs, if_neg h0, if_pos ht]
    · intro h0 ht
      show analyzeGo defs code maxLength (maxLength - offset) offset =
        analyzeGo defs code maxLength
          (maxLength - (offset + (decode_x86_instruction defs code offset maxLength).length))
          (offset + (decode_x86_instruction defs code offset maxLength).length)
      rw [hm, analyzeGo_succ, if_pos hofs, if_neg h0, if_neg ht]
      have hpos := Nat.pos_of_ne_zero h0
      exact analyzeGo_fuel defs code maxLength m _ _ (by omega) (by omega)

/-- Closed instance of C4's conditional part: on the one-byte block `[0xC3]`
the loop consumes the terminator and stops. -/
theorem c4_block_boundary_witness :
    (0 : Nat) < 1 ∧
    analyze_x86_block_from default_x86_defs [0xC3] 1 0 =
      0 + (decode_x86_instruction default_x86_defs [0xC3] 0 1).length :=
  ⟨by decide,
    (c4_block_boundary.2.2 default_x86_defs [0xC3] 1 0 (by decide)).2.1
      (by decide) (by decide)⟩

/-! ### C5 — rule applicator totality -/

/-- C5.  The rule applicator emits exactly the host-word list of the first
rule whose guest opcode matches, and exactly one host NOP word
(`0xD503201F`) when no rule matches; it is total.  Under the seeded default
rules, opcode `0xFE` yields exactly `[0xD503201F]`. -/
theorem c5_rule_applicator_totality :
    (∀ (rules : List TranslationRule) (inst : X86DecodedInst),
      translate_x86_instruction rules inst =
        match rules.find? (fun r => r.x86_opcode == inst.opcode) with
        | some r => r.arm_opcodes
        | none => [0xD503201F]) ∧
    translate_x86_instruction default_translation_rules ⟨0xFE, 0, 0, 0, 0, 1⟩ =
      [0xD503201F] := by
  constructor
  · intro rules inst
    induction rules with
    | nil => rfl
    | cons r rest ih =>
      show (if r.x86_opcode = inst.opcode then r.arm_opcodes
            else translate_x86_instruction rest inst) = _
      rw [List.find?_cons]
      by_cases h : r.x86_opcode = inst.opcode
      · rw [if_pos h]
        simp [h]
      · rw [if_neg h, ih]
        have : (r.x86_opcode == inst.opcode) = false := by
          simp [h]
        rw [this]
  · decide

/-! ### C6 — masked similarity matching in `find_match` -/

/-- Helper for C6: with an empty memo and a query whose fingerprint differs
from the stored signature's, `find_match` returns the signature exactly when
the sizes agree and the masked similarity reaches the threshold. -/
theorem find_match_singleton_iff (code : List Nat) (sig : BlockSignature)
    (hne : XXH64 code 0 ≠ sig.hash) :
    (find_match [] [sig] code).1 = some sig ↔
      (sig.size = code.length ∧
        sig.similarity_threshold ≤
          compare_blocks_with_mask code sig.refBytes sig.mask) := by
  have hbeq : (sig.hash == XXH64 code 0) = false := by
    simp only [beq_eq_false_iff_ne, ne_eq]
    exact fun h => hne h.symm
  have hexact : [sig].find? (fun s => s.hash == XXH64 code 0) = none := by
    simp [List.find?_cons, List.find?_nil, hbeq]
  unfold find_match
  simp only [List.find?_nil, Option.bind, hexact]
  unfold find_fuzzy
  by_cases hsz : sig.size = code.length
  · rw [if_neg (by omega)]
    by_cases hth : sig.similarity_threshold ≤
        compare_blocks_with_mask code sig.refBytes sig.mask
    · rw [if_pos hth]
      simp [hsz, hth]
    · rw [if_neg hth]
      simp [find_fuzzy, hth]
  · rw [if_pos (by omega)]
    simp [find_fuzzy, hsz]

/-- C6.  For a stored signature whose byte length equals the query's length
(and is well-formed: reference bytes and mask of that length), the fuzzy
phase of `find_match` returns it exactly when the masked similarity —
matching bytes over significant bytes where `mask[i] == 1`, computed by
`compare_blocks_with_mask` — is at least the signature's threshold.  The
borderline case is included: with mask `1 1 1 1 0 0 0 0 1` the query
`55 48 89 E4 DE AD BE EF C3` against reference `55 48 89 E5 00 00 00 00 C3`
scores exactly `4/5`, which meets threshold `0.8 = 4/5` because the
comparison uses `≥`. -/
theorem c6_masked_similarity_matching :
    (∀ (code : List Nat) (sig : BlockSignature),
      sig.refBytes.length = sig.size → sig.mask.length = sig.size →
      XXH64 code 0 ≠ sig.hash →
      ((find_match [] [sig] code).1 = some sig ↔
        (sig.size = code.length ∧
          sig.similarity_threshold ≤
            compare_blocks_with_mask code sig.refBytes sig.mask))) ∧
    compare_blocks_with_mask
        [0x55, 0x48, 0x89, 0xE4, 0xDE, 0xAD, 0xBE, 0xEF, 0xC3]
        [0x55, 0x48, 0x89, 0xE5, 0, 0, 0, 0, 0xC3]
        [1, 1, 1, 1, 0, 0, 0, 0, 1] = 4 / 5 ∧
    (find_match []
        [⟨XXH64 [0x55, 0x48, 0x89, 0xE5, 0, 0, 0, 0, 0xC3] 0, 1, 0x4000, 9,
          [0x55, 0x48, 0x89, 0xE5, 0, 0, 0, 0, 0xC3],
          [1, 1, 1, 1, 0, 0, 0, 0, 1], 4 / 5⟩]
        [0x55, 0x48, 0x89, 0xE4, 0xDE, 0xAD, 0xBE, 0xEF, 0xC3]).1 =
      some ⟨XXH64 [0x55, 0x48, 0x89, 0xE5, 0, 0, 0, 0, 0xC3] 0, 1, 0x4000, 9,
          [0x55, 0x48, 0x89, 0xE5, 0, 0, 0, 0, 0xC3],
          [1, 1, 1, 1, 0, 0, 0, 0, 1], 4 / 5⟩ := by
  have hsim : compare_blocks_with_mask
      [0x55, 0x48, 0x89, 0xE4, 0xDE, 0xAD, 0xBE, 0xEF, 0xC3]
      [0x55, 0x48, 0x89, 0xE5, 0, 0, 0, 0, 0xC3]
      [1, 1, 1, 1, 0, 0, 0, 0, 1] = 4 / 5 := by
    norm_num [compare_blocks_with_mask, countMatches]
  refine ⟨fun code sig _ _ hne => find_match_singleton_iff code sig hne, hsim, ?_⟩
  rw [find_match_singleton_iff _ _ (by decide)]
  exact ⟨by decide, le_of_eq hsim.symm⟩

/-- Closed instance of C6's quantified part at the borderline signature. -/
theorem c6_masked_similarity_matching_witness :
    (([0x55, 0x48, 0x89, 0xE5, 0, 0, 0, 0, 0xC3] : List Nat).length = 9 ∧
      ([1, 1, 1, 1, 0, 0, 0, 0, 1] : List Nat).length = 9 ∧
      XXH64 [0x55, 0x48, 0x89, 0xE4, 0xDE, 0xAD, 0xBE, 0xEF, 0xC3] 0 ≠
        XXH64 [0x55, 0x48, 0x89, 0xE5, 0, 0, 0, 0, 0xC3] 0) ∧
    ((find_match []
        [⟨XXH64 [0x55, 0x48, 0x89, 0xE5, 0, 0, 0, 0, 0xC3] 0, 1, 0x4000, 9,
          [0x55, 0x48, 0x89, 0xE5, 0, 0, 0, 0, 0xC3],
          [1, 1, 1, 1, 0, 0, 0, 0, 1], 4 / 5⟩]
        [0x55, 0x48, 0x89, 0xE4, 0xDE, 0xAD, 0xBE, 0xEF, 0xC3]).1 =
        some ⟨XXH64 [0x55, 0x48, 0x89, 0xE5, 0, 0, 0, 0, 0xC3] 0, 1, 0x4000, 9,
          [0x55, 0x48, 0x89, 0xE5, 0, 0, 0, 0, 0xC3],
          [1, 1, 1, 1, 0, 0, 0, 0, 1], 4 / 5⟩ ↔
      ((9 : Nat) = 9 ∧ (4 / 5 : ℚ) ≤ compare_blocks_with_mask
        [0x55, 0x48, 0x89, 0xE4, 0xDE, 0xAD, 0xBE, 0xEF, 0xC3]
        [0x55, 0x48, 0x89, 0xE5, 0, 0, 0, 0, 0xC3]
        [1, 1, 1, 1, 0, 0, 0, 0, 1])) :=
  ⟨⟨rfl, rfl, by decide⟩,
    c6_masked_similarity_matching.1
      [0x55, 0x48, 0x89, 0xE4, 0xDE, 0xAD, 0xBE, 0xEF, 0xC3]
      ⟨XXH64 [0x55, 0x48, 0x89, 0xE5, 0, 0, 0, 0, 0xC3] 0, 1, 0x4000, 9,
        [0x55, 0x48, 0x89, 0xE5, 0, 0, 0, 0, 0xC3],
        [1, 1, 1, 1, 0, 0, 0, 0, 1], 4 / 5⟩
      rfl rfl (by decide)⟩

/-! ### C7 — hot-flag invariant -/

theorem removeLastCold_subset {l l' : List EnhancedTranslationEntry}
    (h : removeLastCold l = some l') : ∀ x ∈ l', x ∈ l := by
  induction l generalizing l' with
  | nil => simp [removeLastCold] at h
  | cons e rest ih =>
    unfold removeLastCold at h
    revert h
    split
    · rename_i rest' hrest
      intro h
      cases h
      intro x hx
      rcases List.mem_cons.mp hx with rfl | hmem
      · exact List.mem_cons_self _ _
      · exact List.mem_cons_of_mem _ (ih hrest x hmem)
    · rename_i hrest
      intro h
      by_cases hhot : e.is_hot
      · simp [hhot] at h
      · simp [hhot] at h
        subst h
        exact fun x hx => List.mem_cons_of_mem _ hx

theorem evictOne_subset (l : List EnhancedTranslationEntry) :
    ∀ x ∈ evictOne l, x ∈ l := by
  unfold evictOne
  split
  · rename_i l' h
    exact removeLastCold_subset h
  · exact fun x hx => List.dropLast_subset l hx

/-- The tier-1 hot-flag invariant: `is_hot` mirrors `access_count > 10`. -/
theorem save_to_l1_cache_hot_inv (l1 : List EnhancedTranslationEntry)
    (entry : EnhancedTranslationEntry) (now : Nat)
    (hinv : ∀ e ∈ l1, e.is_hot = decide (10 < e.access_count))
    (hent : entry.is_hot = false) :
    ∀ e ∈ save_to_l1_cache l1 entry now,
      e.is_hot = decide (10 < e.access_count) := by
  unfold save_to_l1_cache
  split
  · rename_i i _
    intro e he
    rcases List.mem_cons.mp he with rfl | hmem
    · rfl
    · exact hinv e (List.eraseIdx_subset l1 i hmem)
  · intro e he
    rcases List.mem_cons.mp he with rfl | hmem
    · simpa using hent
    · by_cases hcap : MAX_L1_CACHE_ENTRIES ≤ l1.length
      · rw [if_pos hcap] at hmem
        exact hinv e (evictOne_subset l1 e hmem)
      · rw [if_neg hcap] at hmem
        exact hinv e hmem

theorem lookup_l1_cache_hot_inv (l1 : List EnhancedTranslationEntry)
    (addr hash now : Nat)
    (hinv : ∀ e ∈ l1, e.is_hot = decide (10 < e.access_count)) :
    ∀ e ∈ (lookup_l1_cache l1 addr hash now).2,
      e.is_hot = decide (10 < e.access_count) := by
  unfold lookup_l1_cache
  split
  · rename_i i _
    intro e he
    rcases List.mem_cons.mp he with rfl | hmem
    · rfl
    · exact hinv e (List.eraseIdx_subset l1 i hmem)
  · exact hinv

/-- C7 counterexample.  Promoting a tier-2 record with `execution_count = 20`
into tier 1 (via `lookup`) creates an entry with `access_count = 1` (the
new-entry branch of `save_to_l1_cache` resets the counter) but
`is_hot = true` (copied from the on-disk execution count), violating
`hot == (access_counter > 10)`. -/
theorem c7_counterexample_promotion :
    ((cache_lookup []
        ⟨⟨0x415243524F535345, 1, 1, 999, 0, 0, 0⟩,
          [⟨0x1000, 1, XXH64 [7] 0, 0, 1, 20, 0, 0⟩], [9]⟩
        0x1000 [7] 5).2.1.headD default).access_count = 1 ∧
    ((cache_lookup []
        ⟨⟨0x415243524F535345, 1, 1, 999, 0, 0, 0⟩,
          [⟨0x1000, 1, XXH64 [7] 0, 0, 1, 20, 0, 0⟩], [9]⟩
        0x1000 [7] 5).2.1.headD default).is_hot = true ∧
    (cache_lookup []
        ⟨⟨0x415243524F535345, 1, 1, 999, 0, 0, 0⟩,
          [⟨0x1000, 1, XXH64 [7] 0, 0, 1, 20, 0, 0⟩], [9]⟩
        0x1000 [7] 5).1.1 = CacheLevel.L2_PERSISTENT ∧
    ¬ (10 < 1) := by
  decide

/-- C7 (amended).  `store` and a tier-1 lookup hit preserve the invariant
`hot == (access_counter > 10)` for every tier-1 entry; the tier-2 promotion
path does not (it resets `access_count` to 1 while copying `hot` from the
on-disk execution counter). -/
theorem c7_hot_flag_invariant :
    (∀ (l1 : List EnhancedTranslationEntry) (x86_addr : Nat) (x86_code : List Nat)
        (arm_addr : Nat) (arm_code : List Nat) (now : Nat),
      (∀ e ∈ l1, e.is_hot = decide (10 < e.access_count)) →
      ∀ e ∈ store l1 x86_addr x86_code arm_addr arm_code now,
        e.is_hot = decide (10 < e.access_count)) ∧
    (∀ (l1 : List EnhancedTranslationEntry) (addr hash now : Nat),
      (∀ e ∈ l1, e.is_hot = decide (10 < e.access_count)) →
      ∀ e ∈ (lookup_l1_cache l1 addr hash now).2,
        e.is_hot = decide (10 < e.access_count)) := by
  constructor
  · intro l1 x86_addr x86_code arm_addr arm_code now hinv
    exact save_to_l1_cache_hot_inv l1 _ now hinv rfl
  · intro l1 addr hash now hinv
    exact lookup_l1_cache_hot_inv l1 addr hash now hinv

/-- Closed instance of C7's amended invariant: storing one block into an
empty tier 1 yields a cache satisfying the invariant. -/
theorem c7_hot_flag_invariant_witness :
    (∀ e ∈ ([] : List EnhancedTranslationEntry),
        e.is_hot = decide (10 < e.access_count)) ∧
    (∀ e ∈ store [] 0x1000 [0x90] 0 [0x1F, 0x20, 0x03, 0xD5] 0,
        e.is_hot = decide (10 < e.access_count)) :=
  ⟨fun e he => absurd he (List.not_mem_nil e),
    c7_hot_flag_invariant.1 [] 0x1000 [0x90] 0 [0x1F, 0x20, 0x03, 0xD5] 0
      (fun e he => absurd he (List.not_mem_nil e))⟩

/-! ### C8 — eviction fairness -/

theorem removeLastCold_none (l : List EnhancedTranslationEntry)
    (h : ∀ e ∈ l, e.is_hot = true) : removeLastCold l = none := by
  induction l with
  | nil => rfl
  | cons e rest ih =>
    unfold removeLastCold
    rw [ih (fun x hx => h x (List.mem_cons_of_mem _ hx))]
    simp [h e (List.mem_cons_self _ _)]

theorem removeLastCold_length :
    ∀ {l l' : List EnhancedTranslationEntry}, removeLastCold l = some l' →
      l'.length + 1 = l.length := by
  intro l
  induction l with
  | nil => intro l' h; simp [removeLastCold] at h
  | cons e rest ih =>
    intro l' h
    unfold removeLastCold at h
    revert h
    split
    · rename_i rest' hrest
      intro h
      cases h
      have := ih hrest
      simp only [List.length_cons]
      omega
    · rename_i hrest
      intro h
      by_cases hhot : e.is_hot
      · simp [hhot] at h
      · simp [hhot] at h
        subst h
        rfl

/-- The reverse scan removes exactly the last (LRU-most) entry whose hot
flag is false: the removed position is cold and everything behind it is
hot. -/
theorem removeLastCold_spec (l : List EnhancedTranslationEntry)
    (h : ∃ e ∈ l, e.is_hot = false) :
    ∃ i, i < l.length ∧ (l.getD i default).is_hot = false ∧
      (∀ j, i < j → j < l.length → (l.getD j default).is_hot = true) ∧
      removeLastCold l = some (l.eraseIdx i) := by
  induction l with
  | nil => simp at h
  | cons e rest ih =>
    by_cases hrest : ∃ x ∈ rest, x.is_hot = false
    · obtain ⟨i, hi, hcold, hhot, heq⟩ := ih hrest
      refine ⟨i + 1, by simp only [List.length_cons]; omega,
        by simpa [List.getD_cons_succ] using hcold, ?_, ?_⟩
      · intro j hj hjlen
        obtain ⟨j', rfl⟩ : ∃ j', j = j' + 1 := ⟨j - 1, by omega⟩
        simp only [List.getD_cons_succ]
        exact hhot j' (by omega) (by simp only [List.length_cons] at hjlen; omega)
      · unfold removeLastCold
        rw [heq]
        rfl
    · push_neg at hrest
      have hallhot : ∀ x ∈ rest, x.is_hot = true := by
        intro x hx
        have := hrest x hx
        simpa using this
      have hecold : e.is_hot = false := by
        obtain ⟨x, hx, hxf⟩ := h
        rcases List.mem_cons.mp hx with rfl | hmem
        · exact hxf
        · exact absurd hxf (by simp [hallhot x hmem])
      refine ⟨0, by simp, by simpa using hecold, ?_, ?_⟩
      · intro j hj hjlen
        obtain ⟨j', rfl⟩ : ∃ j', j = j' + 1 := ⟨j - 1, by omega⟩
        simp only [List.getD_cons_succ]
        have hj'len : j' < rest.length := by
          simp only [List.length_cons] at hjlen; omega
        rw [List.getD_eq_getElem rest default hj'len]
        exact hallhot _ (List.getElem_mem hj'len)
      · unfold removeLastCold
        rw [removeLastCold_none rest hallhot]
        simp [hecold]

theorem evictOne_length (l : List EnhancedTranslationEntry) :
    (evictOne l).length = l.length - 1 := by
  unfold evictOne
  split
  · rename_i l' heq
    have := removeLastCold_length heq
    omega
  · simp [List.length_dropLast]

theorem findIdx?_save_none (l1 : List EnhancedTranslationEntry)
    (entry : EnhancedTranslationEntry)
    (hfresh : ∀ e ∈ l1, e.x86_addr ≠ entry.x86_addr) :
    l1.findIdx?
      (fun e => e.x86_addr == entry.x86_addr && e.x86_hash == entry.x86_hash) = none := by
  rw [List.findIdx?_eq_none_iff]
  intro x hx
  simp [hfresh x hx]

theorem save_to_l1_length_fresh (l1 : List EnhancedTranslationEntry)
    (entry : EnhancedTranslationEntry) (now : Nat)
    (hfresh : ∀ e ∈ l1, e.x86_addr ≠ entry.x86_addr) :
    (save_to_l1_cache l1 entry now).length =
      if MAX_L1_CACHE_ENTRIES ≤ l1.length then l1.length else l1.length + 1 := by
  unfold save_to_l1_cache
  rw [findIdx?_save_none l1 entry hfresh]
  dsimp only
  by_cases hcap : MAX_L1_CACHE_ENTRIES ≤ l1.length
  · rw [if_pos hcap, if_pos hcap]
    simp only [List.length_cons]
    rw [evictOne_length l1]
    unfold MAX_L1_CACHE_ENTRIES at hcap
    omega
  · rw [if_neg hcap, if_neg hcap]
    simp

theorem save_to_l1_addrs_fresh (l1 : List EnhancedTranslationEntry)
    (entry : EnhancedTranslationEntry) (now : Nat)
    (hfresh : ∀ e ∈ l1, e.x86_addr ≠ entry.x86_addr) :
    ∀ x ∈ save_to_l1_cache l1 entry now,
      x.x86_addr = entry.x86_addr ∨ ∃ y ∈ l1, x.x86_addr = y.x86_addr := by
  unfold save_to_l1_cache
  rw [findIdx?_save_none l1 entry hfresh]
  dsimp only
  intro x hx
  rcases List.mem_cons.mp hx with rfl | hmem
  · left; rfl
  · right
    by_cases hcap : MAX_L1_CACHE_ENTRIES ≤ l1.length
    · rw [if_pos hcap] at hmem
      exact ⟨x, evictOne_subset l1 x hmem, rfl⟩
    · rw [if_neg hcap] at hmem
      exact ⟨x, hmem, rfl⟩

/-- Folding `store` over distinct-address inserts: the tier-1 size is the
insert count clamped at the 1024-entry capacity. -/
theorem store_fold_length (now : Nat) :
    ∀ (inserts : List (Nat × List Nat × Nat × List Nat))
      (l1 : List EnhancedTranslationEntry),
      (inserts.map (fun q => q.1)).Nodup →
      (∀ q ∈ inserts, ∀ e ∈ l1, e.x86_addr ≠ q.1) →
      l1.length ≤ MAX_L1_CACHE_ENTRIES →
      (inserts.foldl (fun c q => store c q.1 q.2.1 q.2.2.1 q.2.2.2 now) l1).length =
        min (l1.length + inserts.length) MAX_L1_CACHE_ENTRIES := by
  intro inserts
  induction inserts with
  | nil =>
    intro l1 _ _ hle
    simpa using (Nat.min_eq_left hle).symm
  | cons q rest ih =>
    intro l1 hnodup hfresh hle
    simp only [List.foldl_cons]
    have hfq : ∀ e ∈ l1, e.x86_addr ≠ q.1 :=
      fun e he => hfresh q (List.mem_cons_self _ _) e he
    have hstep : store l1 q.1 q.2.1 q.2.2.1 q.2.2.2 now =
        save_to_l1_cache l1
          ⟨q.1, q.2.2.1, q.2.1.length, q.2.2.2.length, XXH64 q.2.1 0, now, 1, false, 0⟩
          now := rfl
    have hlen1 : (store l1 q.1 q.2.1 q.2.2.1 q.2.2.2 now).length =
        if MAX_L1_CACHE_ENTRIES ≤ l1.length then l1.length else l1.length + 1 := by
      rw [hstep]
      exact save_to_l1_length_fresh l1 _ now hfq
    have haddr : ∀ x ∈ store l1 q.1 q.2.1 q.2.2.1 q.2.2.2 now,
        x.x86_addr = q.1 ∨ ∃ y ∈ l1, x.x86_addr = y.x86_addr := by
      rw [hstep]
      exact save_to_l1_addrs_fresh l1 _ now hfq
    rw [List.map_cons, List.nodup_cons] at hnodup
    obtain ⟨hnotmem, hnodup'⟩ := hnodup
    have hfresh' : ∀ r ∈ rest, ∀ e ∈ store l1 q.1 q.2.1 q.2.2.1 q.2.2.2 now,
        e.x86_addr ≠ r.1 := by
      intro r hr e he
      rcases haddr e he with heq | ⟨y, hy, heq⟩
      · rw [heq]
        intro hqr
        exact hnotmem (hqr ▸ List.mem_map_of_mem (fun r => r.1) hr)
      · rw [heq]
        exact hfresh r (List.mem_cons_of_mem _ hr) y hy
    have hle' : (store l1 q.1 q.2.1 q.2.2.1 q.2.2.2 now).length ≤
        MAX_L1_CACHE_ENTRIES := by
      rw [hlen1]
      by_cases hcap : MAX_L1_CACHE_ENTRIES ≤ l1.length
      · rw [if_pos hcap]; exact hle
      · rw [if_neg hcap]; omega
    rw [ih _ hnodup' hfresh' hle', hlen1]
    simp only [List.length_cons]
    by_cases hcap : MAX_L1_CACHE_ENTRIES ≤ l1.length
    · rw [if_pos hcap]
      omega
    · rw [if_neg hcap]
      omega

/-- C8.  Eviction fairness: (1) after more than 1024 insertions of
distinct-address blocks into an empty tier 1 with no re-access, exactly 1024
entries survive; (2) inserting a fresh key at capacity prepends the new
entry and evicts exactly one entry chosen by `evictOne`; (3) when some entry
is cold, `evictOne` removes the least-recently-used (closest to the back of
the MRU-first list) entry whose hot flag is false, every entry behind it
being hot; (4) when every entry is hot, it removes the LRU entry
unconditionally. -/
theorem c8_eviction_fairness :
    (∀ (inserts : List (Nat × List Nat × Nat × List Nat)) (now : Nat),
      (inserts.map (fun q => q.1)).Nodup →
      MAX_L1_CACHE_ENTRIES < inserts.length →
      (inserts.foldl (fun c q => store c q.1 q.2.1 q.2.2.1 q.2.2.2 now) []).length =
        1024) ∧
    (∀ (l1 : List EnhancedTranslationEntry) (entry : EnhancedTranslationEntry)
        (now : Nat),
      (∀ e ∈ l1, ¬(e.x86_addr = entry.x86_addr ∧ e.x86_hash = entry.x86_hash)) →
      MAX_L1_CACHE_ENTRIES ≤ l1.length →
      save_to_l1_cache l1 entry now =
        { entry with last_access := now, access_count := 1 } :: evictOne l1) ∧
    (∀ (l : List EnhancedTranslationEntry), (∃ e ∈ l, e.is_hot = false) →
      ∃ i, i < l.length ∧ (l.getD i default).is_hot = false ∧
        (∀ j, i < j → j < l.length → (l.getD j default).is_hot = true) ∧
        evictOne l = l.eraseIdx i) ∧
    (∀ (l : List EnhancedTranslationEntry), (∀ e ∈ l, e.is_hot = true) →
      evictOne l = l.dropLast) := by
  refine ⟨?_, ?_, ?_, ?_⟩
  · intro inserts now hnodup hlong
    have := store_fold_length now inserts [] hnodup (by simp) (by simp)
    rw [this]
    simp only [List.length_nil, Nat.zero_add]
    unfold MAX_L1_CACHE_ENTRIES at hlong ⊢
    omega
  · intro l1 entry now hnomatch hcap
    unfold save_to_l1_cache
    have hnone : l1.findIdx?
        (fun e => e.x86_addr == entry.x86_addr && e.x86_hash == entry.x86_hash) =
        none := by
      rw [List.findIdx?_eq_none_iff]
      intro x hx
      have := hnomatch x hx
      simp only [Bool.and_eq_false_iff, beq_eq_false_iff_ne, ne_eq]
      tauto
    rw [hnone]
    dsimp only
    rw [if_pos hcap]
  · intro l hcold
    obtain ⟨i, hi, hc, hh, heq⟩ := removeLastCold_spec l hcold
    refine ⟨i, hi, hc, hh, ?_⟩
    unfold evictOne
    rw [heq]
  · intro l hhot
    unfold evictOne
    rw [removeLastCold_none l hhot]

/-- Closed instance of C8: 1025 distinct-address insertions leave exactly
1024 tier-1 entries. -/
theorem c8_eviction_fairness_witness :
    ((((List.range 1025).map
          (fun i => (i, ([] : List Nat), 0, ([] : List Nat)))).map
        (fun q => q.1)).Nodup ∧
      MAX_L1_CACHE_ENTRIES <
        ((List.range 1025).map
          (fun i => (i, ([] : List Nat), 0, ([] : List Nat)))).length) ∧
    (((List.range 1025).map
        (fun i => (i, ([] : List Nat), 0, ([] : List Nat)))).foldl
      (fun c q => store c q.1 q.2.1 q.2.2.1 q.2.2.2 0) []).length = 1024 := by
  have hnodup : (((List.range 1025).map
      (fun i => (i, ([] : List Nat), 0, ([] : List Nat)))).map
        (fun q => q.1)).Nodup := by
    rw [List.map_map]
    have hcomp : ((fun q : Nat × List Nat × Nat × List Nat => q.1) ∘
        (fun i : Nat => (i, ([] : List Nat), 0, ([] : List Nat)))) = fun i => i := rfl
    rw [hcomp, List.map_id']
    exact List.nodup_range 1025
  have hlong : MAX_L1_CACHE_ENTRIES <
      ((List.range 1025).map
        (fun i => (i, ([] : List Nat), 0, ([] : List Nat)))).length := by
    rw [List.length_map, List.length_range]
    unfold MAX_L1_CACHE_ENTRIES
    omega
  exact ⟨⟨hnodup, hlong⟩, c8_eviction_fairness.1 _ 0 hnodup hlong⟩

/-! ### C9 — integrity rejection -/

/-- C9 counterexample.  A cache file with a valid magic and version but a
binary fingerprint (2) different from the expected one (1) is still returned
as a tier-2 hit by `lookup_l2_cache` — which never looks at the fingerprint
— and the lookup rewrites the file (header hit count and the matched
record), so the file's bytes change. -/
theorem c9_counterexample_fingerprint_ignored :
    (2 : Nat) ≠ 1 ∧
    (lookup_l2_cache
        ⟨⟨0x415243524F535345, 1, 1, 2, 0, 0, 0⟩, [⟨5, 1, 7, 0, 1, 0, 0, 0⟩], [9]⟩
        5 7 3).1.isSome = true ∧
    (lookup_l2_cache
        ⟨⟨0x415243524F535345, 1, 1, 2, 0, 0, 0⟩, [⟨5, 1, 7, 0, 1, 0, 0, 0⟩], [9]⟩
        5 7 3).2 ≠
      ⟨⟨0x415243524F535345, 1, 1, 2, 0, 0, 0⟩, [⟨5, 1, 7, 0, 1, 0, 0, 0⟩], [9]⟩ := by
  decide

/-- C9 (amended).  A cache file whose header magic or version is corrupted
is never returned as a hit and never modified, by either `lookup_l2_cache`
or `load_l2_cache`; a mismatched binary fingerprint causes a miss without
modification only in `load_l2_cache` (when the caller supplied a nonzero
expected fingerprint) — `lookup_l2_cache` does not check the fingerprint. -/
theorem c9_integrity_rejection :
    (∀ (f : CacheFile) (addr hash now : Nat),
      f.header.magic ≠ CACHE_MAGIC ∨ f.header.version ≠ CACHE_VERSION →
      lookup_l2_cache f addr hash now = (none, f)) ∧
    (∀ (f : CacheFile) (expected now : Nat),
      f.header.magic ≠ CACHE_MAGIC ∨ f.header.version ≠ CACHE_VERSION ∨
        (expected ≠ 0 ∧ f.header.x86_hash ≠ expected) →
      load_l2_cache f expected now = (none, f)) := by
  constructor
  · intro f addr hash now h
    unfold lookup_l2_cache
    rw [if_pos h]
  · intro f expected now h
    unfold load_l2_cache
    by_cases h1 : f.header.magic ≠ CACHE_MAGIC ∨ f.header.version ≠ CACHE_VERSION
    · rw [if_pos h1]
    · rcases h with h | h | h
      · exact absurd (Or.inl h) h1
      · exact absurd (Or.inr h) h1
      · rw [if_neg h1, if_pos h]

/-- Closed instance of C9's amended statement at a bad-magic file. -/
theorem c9_integrity_rejection_witness :
    ((0 : Nat) ≠ CACHE_MAGIC ∨ (1 : Nat) ≠ CACHE_VERSION) ∧
    lookup_l2_cache ⟨⟨0, 1, 0, 0, 0, 0, 0⟩, [], []⟩ 5 7 3 =
      (none, ⟨⟨0, 1, 0, 0, 0, 0, 0⟩, [], []⟩) :=
  ⟨Or.inl (by decide), c9_integrity_rejection.1 _ 5 7 3 (Or.inl (by decide))⟩

/-! ### C1 — persist round-trip -/

/-- C1 fails on the code.  Store block A (`guest [1]`, host bytes
`AA AB`, arena offset 0) then block B (`guest [2]`, host bytes `BA BB`,
arena offset 2); checkpoint with the arena `AA AB BA BB`.  The tier-1 list
is MRU-first `[B, A]`, so `save_l2_cache` assigns B the prefix-sum offset 0
and A the offset 2, while the payload is the arena in allocation order
(A first).  The subsequent tier-2 lookups are hits but return the wrong
bytes: looking up B yields A's bytes and vice versa. -/
theorem c1_persist_round_trip_failure :
    (lookup_l2_cache
        (checkpoint
          (store (store [] 0x1000 [1] 100 [0xAA, 0xAB] 0) 0x2000 [2] 102 [0xBA, 0xBB] 1)
          [0xAA, 0xAB, 0xBA, 0xBB] 2)
        0x2000 (XXH64 [2] 0) 3).1.map (fun r => r.2) = some [0xAA, 0xAB] ∧
    (lookup_l2_cache
        (checkpoint
          (store (store [] 0x1000 [1] 100 [0xAA, 0xAB] 0) 0x2000 [2] 102 [0xBA, 0xBB] 1)
          [0xAA, 0xAB, 0xBA, 0xBB] 2)
        0x1000 (XXH64 [1] 0) 3).1.map (fun r => r.2) = some [0xBA, 0xBB] ∧
    ([0xAA, 0xAB] : List Nat) ≠ [0xBA, 0xBB] := by
  decide

/-! ### C10 — write ordering through flush -/

/-- A job with an empty destination path — the shape of `flush`'s sentinel —
performs no write and never has its callback invoked, because the whole job
body of `worker_function` sits inside `if (!job.cache_file.empty())`. -/
theorem processJob_empty_path (fs : FileSys) (j : WriteCacheJob)
    (h : j.cache_file = "") : processJob fs j = (fs, []) := by
  unfold processJob
  rw [if_neg (by simp [h])]

/-- C10 fails on the code.  Writes A then B to the same file are indeed
applied in submission (FIFO) order — a read of the final state sees B's
bytes — but `flush` never returns when the queue was non-empty: its sentinel
job has an empty path and a callback, and the worker loop only invokes
callbacks inside `if (!job.cache_file.empty())`, so the sentinel's
completion signal is never delivered and `done_future.wait()` blocks
forever. -/
theorem c10_flush_sentinel_never_fires :
    flush_sentinel.has_callback = true ∧
    run_worker [] [⟨"f", [97], 0, false⟩, ⟨"f", [98], 0, false⟩, flush_sentinel] =
      ([("f", [98]), ("f", [97])], []) ∧
    fsRead (run_worker []
        [⟨"f", [97], 0, false⟩, ⟨"f", [98], 0, false⟩, flush_sentinel]).1 "f" =
      some [98] ∧
    flush_sentinel ∉
      (run_worker [] [⟨"f", [97], 0, false⟩, ⟨"f", [98], 0, false⟩, flush_sentinel]).2 := by
  decide

end Rotheca
